import Mathlib

/-!
# PinePulse — SKU performance-ranking and replenishment-metric engine

Shallow embedding of the ranked-segment computation of `src/main.py`
(the "Generate Report" branch, lines 50–98), together with the
spec-modelled parts of `compute_segments` (velocity, days-of-supply and
error conditions) that this source variant does not implement.

Monetary amounts and quantities are embedded as rationals; a pandas
data frame of transaction rows is a `List Record`.
-/

namespace PinePulse

/-- One transaction row of the filtered data frame `df`:
`Product Name` (`itemId`), `Txn Amount (₹)` (`amount`) and the optional
per-line quantity column of the data model in the spec (absent columns are
`none`). -/
structure Record where
  itemId : String
  amount : ℚ
  quantity : Option ℚ
  deriving DecidableEq, Repr

/-- The distinct product names occurring in the record set: the group keys of
`df.groupby("Product Name")`.  `dedup` keeps one copy of each. -/
def itemIds (rs : List Record) : List String :=
  (rs.map Record.itemId).dedup

/-- The group keys in ascending lexical order, as produced by pandas
`groupby` (which sorts its keys). -/
def sortedItems (rs : List Record) : List String :=
  List.insertionSort (· ≤ ·) (itemIds rs)

/-- `df.groupby("Product Name")["Txn Amount (₹)"].sum()` restricted to one
key: the sum of `amount` over the records of item `i`. -/
def salesFor (rs : List Record) (i : String) : ℚ :=
  ((rs.filter (fun r => r.itemId = i)).map Record.amount).sum

/-- Line 63: `sku_sales = df.groupby("Product Name")["Txn Amount (₹)"].sum().reset_index()` —
one `(product, total sales)` row per distinct item, keys in ascending
lexical order. -/
def sku_sales (rs : List Record) : List (String × ℚ) :=
  (sortedItems rs).map (fun i => (i, salesFor rs i))

/-- Line 50: `total_sales = df["Txn Amount (₹)"].sum()` — the overall sales
figure of the whole record set. -/
def total_sales (rs : List Record) : ℚ :=
  (rs.map Record.amount).sum

/-- Line 65: `top_n = max(1, math.ceil(n * 0.3))`. -/
def top_n (n : ℕ) : ℕ :=
  max 1 (Int.toNat ⌈(n : ℚ) * (3 / 10)⌉)

/-- Descending-sales comparison used by `nlargest`: `a` precedes `b` when
the sales of `b` do not exceed those of `a`. -/
def descSales (a b : String × ℚ) : Prop := b.2 ≤ a.2

/-- Ascending-sales comparison used by `nsmallest`. -/
def ascSales (a b : String × ℚ) : Prop := a.2 ≤ b.2

instance : DecidableRel descSales := fun a b => inferInstanceAs (Decidable (b.2 ≤ a.2))

instance : DecidableRel ascSales := fun a b => inferInstanceAs (Decidable (a.2 ≤ b.2))

instance : IsTotal (String × ℚ) descSales := ⟨fun a b => le_total b.2 a.2⟩

instance : IsTotal (String × ℚ) ascSales := ⟨fun a b => le_total a.2 b.2⟩

instance : IsTrans (String × ℚ) descSales := ⟨fun _ _ _ h1 h2 => le_trans h2 h1⟩

instance : IsTrans (String × ℚ) ascSales := ⟨fun _ _ _ h1 h2 => le_trans h1 h2⟩

/-- Line 66: `top_df = sku_sales.nlargest(top_n, "Txn Amount (₹)")` —
a stable descending sort by sales, keeping the first `top_n` rows
(pandas keeps the first occurrences: ties resolved by position in `sku_sales`). -/
def top_df (rs : List Record) : List (String × ℚ) :=
  (List.insertionSort descSales (sku_sales rs)).take (top_n (sku_sales rs).length)

/-- Line 67: `bottom_df = sku_sales.nsmallest(top_n, "Txn Amount (₹)")`. -/
def bottom_df (rs : List Record) : List (String × ℚ) :=
  (List.insertionSort ascSales (sku_sales rs)).take (top_n (sku_sales rs).length)

/-- Python `round(x, 1)` on exact rationals: round to one decimal place
(half-way values round up). -/
def round1 (q : ℚ) : ℚ :=
  (round (q * 10) : ℤ) / 10

/-- The per-item aggregate of the data model of the spec (§3): sales total with
velocity and days-of-supply annotations, quantity fields optional. -/
structure ItemAggregate where
  item_id : String
  total_sales : ℚ
  total_quantity : Option ℚ
  velocity : ℚ
  days_supply : Option ℚ
  deriving DecidableEq, Repr

/-- Modelled from the spec (§4.1 step 4): `total_quantity` for an item is the
sum of the quantity values of its records, and is undefined when the item has no
quantity data (absence and zero are kept distinct).  This source variant
carries no quantity column, so the computation is absent from `src/main.py`. -/
def quantityFor (rs : List Record) (i : String) : Option ℚ :=
  let qs := (rs.filter (fun r => r.itemId = i)).filterMap Record.quantity
  if qs.isEmpty then none else some qs.sum

/-- Modelled from the spec (§4.1 steps 4–6): annotate one `(item, sales)` row
with `velocity = round(total_sales / window_days, 1)` and
`days_supply = round(total_quantity / velocity, 1)`, the latter only when
`total_quantity` is defined and `velocity > 0`.  Absent from `src/main.py`,
which only forwards name and sales. -/
def mkAggregate (rs : List Record) (w : ℤ) (e : String × ℚ) : ItemAggregate :=
  let v := round1 (e.2 / (w : ℚ))
  { item_id := e.1
    total_sales := e.2
    total_quantity := quantityFor rs e.1
    velocity := v
    days_supply :=
      match quantityFor rs e.1 with
      | none => none
      | some q => if 0 < v then some (round1 (q / v)) else none }

/-- The error taxonomy of the spec (§7). -/
inductive SegError where
  | EmptyInputError
  | InvalidWindowError
  deriving DecidableEq, Repr

/-- The two ranked segments returned by `compute_segments`: `top` descending
by sales, `bottom` ascending. -/
structure SegmentOutput where
  top : List ItemAggregate
  bottom : List ItemAggregate
  deriving DecidableEq, Repr

deriving instance DecidableEq for Except

/-- Modelled from the spec (§4.1, §7): the `compute_segments` operation.
Its segment bodies are the `top_df`/`bottom_df` of the source (lines 63–67); the
guard clauses (`EmptyInputError` on an empty record set, `InvalidWindowError`
on a non-positive window, empty-input check first) and the aggregate
annotations are absent from this source variant and follow the wording of the spec. -/
def compute_segments (rs : List Record) (window_days : ℤ) :
    Except SegError SegmentOutput :=
  if rs.isEmpty then .error .EmptyInputError
  else if window_days ≤ 0 then .error .InvalidWindowError
  else .ok { top := (top_df rs).map (mkAggregate rs window_days)
             bottom := (bottom_df rs).map (mkAggregate rs window_days) }

/-- State-passing form of the computation: the record collection (the data
frame the source statements read) is threaded as explicit state and handed
back with the result, mirroring that lines 63–98 only read `df`. -/
def computeSegmentsSt (rs : List Record) (w : ℤ) :
    Except SegError SegmentOutput × List Record :=
  if rs.isEmpty then (.error .EmptyInputError, rs)
  else if w ≤ 0 then (.error .InvalidWindowError, rs)
  else
    let s := sku_sales rs
    let k := top_n s.length
    let t := (List.insertionSort descSales s).take k
    let b := (List.insertionSort ascSales s).take k
    (.ok { top := t.map (mkAggregate rs w), bottom := b.map (mkAggregate rs w) }, rs)

/-- Refinement of `descSales` recording the tie-break: strictly larger sales
first, equal sales resolved by ascending lexical product name. -/
def descLex (a b : String × ℚ) : Prop := b.2 < a.2 ∨ (a.2 = b.2 ∧ a.1 < b.1)

/-- Refinement of `ascSales` recording the tie-break: strictly smaller sales
first, equal sales resolved by ascending lexical product name. -/
def ascLex (a b : String × ℚ) : Prop := a.2 < b.2 ∨ (a.2 = b.2 ∧ a.1 < b.1)

/-- The worked example input of the spec (§8): one item "A" with `total_sales = 3000`
and `total_quantity = 100`, over a 20-day window. -/
def exRecords : List Record := [⟨"A", 3000, some 100⟩]

/-- The output `compute_segments exRecords 20` produces: both segments hold the
single aggregate of item "A". -/
def exOutput : SegmentOutput :=
  { top := [mkAggregate exRecords 20 ("A", 3000)]
    bottom := [mkAggregate exRecords 20 ("A", 3000)] }

/-! ## Evaluation lemmas for concrete inputs -/

theorem top_n_one : top_n 1 = 1 := by
  have h : (⌈(3 / 10 : ℚ)⌉ : ℤ) = 1 := by
    rw [Int.ceil_eq_iff]
    norm_num
  simp [top_n, h]

theorem salesFor_exRecords : salesFor [⟨"A", 3000, some 100⟩] "A" = 3000 := by
  simp [salesFor]

theorem sku_sales_exRecords : sku_sales [⟨"A", 3000, some 100⟩] = [("A", 3000)] := by
  simp [sku_sales, sortedItems, itemIds, salesFor_exRecords]

theorem top_df_exRecords : top_df [⟨"A", 3000, some 100⟩] = [("A", 3000)] := by
  simp [top_df, sku_sales_exRecords, top_n_one, salesFor_exRecords]

theorem bottom_df_exRecords : bottom_df [⟨"A", 3000, some 100⟩] = [("A", 3000)] := by
  simp [bottom_df, sku_sales_exRecords, top_n_one, salesFor_exRecords]

theorem compute_segments_exRecords :
    compute_segments exRecords 20 = .ok exOutput := by
  simp [compute_segments, exRecords, exOutput, top_df_exRecords, bottom_df_exRecords]

/-! ## General lemmas about the segment computation -/

theorem length_sortedItems (rs : List Record) :
    (sortedItems rs).length = (itemIds rs).length :=
  (List.perm_insertionSort _ _).length_eq

theorem length_sku_sales (rs : List Record) :
    (sku_sales rs).length = (itemIds rs).length := by
  rw [sku_sales, List.length_map, length_sortedItems]

theorem one_le_itemIds_length {rs : List Record} (h : rs ≠ []) :
    1 ≤ (itemIds rs).length := by
  match rs, h with
  | r :: t, _ =>
    have hm : r.itemId ∈ itemIds (r :: t) := by
      rw [itemIds, List.mem_dedup]
      exact List.mem_map_of_mem Record.itemId (List.mem_cons_self r t)
    exact List.length_pos.mpr (List.ne_nil_of_mem hm)

theorem top_n_le {n : ℕ} (h : 1 ≤ n) : top_n n ≤ n := by
  have hc : ⌈(n : ℚ) * (3 / 10)⌉ ≤ (n : ℤ) := by
    rw [Int.ceil_le]
    push_cast
    exact mul_le_of_le_one_right (Nat.cast_nonneg n) (by norm_num)
  exact max_le h (Int.toNat_le.mpr hc)

/-- C1.  For a non-empty record set both segments hold exactly
`top_n n = max(1, ceil(n * 0.3))` members, where `n = (itemIds rs).length` is
the number of distinct items: the same size formula for both segments. -/
theorem segment_sizes (rs : List Record) (h : rs ≠ []) :
    (top_df rs).length = top_n (itemIds rs).length ∧
    (bottom_df rs).length = top_n (itemIds rs).length := by
  have hn : 1 ≤ (itemIds rs).length := one_le_itemIds_length h
  have hk : top_n (itemIds rs).length ≤ (itemIds rs).length := top_n_le hn
  refine ⟨?_, ?_⟩
  · rw [top_df, List.length_take, (List.perm_insertionSort _ _).length_eq,
      length_sku_sales, min_eq_left hk]
  · rw [bottom_df, List.length_take, (List.perm_insertionSort _ _).length_eq,
      length_sku_sales, min_eq_left hk]

/-- Witness for C1: the one-record example set has one distinct item and both
segments have the prescribed size `top_n 1`. -/
theorem segment_sizes_witness :
    (top_df exRecords).length = top_n (itemIds exRecords).length ∧
    (bottom_df exRecords).length = top_n (itemIds exRecords).length :=
  segment_sizes exRecords (by simp [exRecords])

/-- C2.  The top segment is ordered with non-increasing `total_sales`
(`descSales` between any earlier and later member), the bottom segment with
non-decreasing `total_sales`. -/
theorem segments_sorted (rs : List Record) :
    (top_df rs).Pairwise descSales ∧ (bottom_df rs).Pairwise ascSales :=
  ⟨(List.sorted_insertionSort descSales (sku_sales rs)).sublist
      (List.take_sublist _ _),
   (List.sorted_insertionSort ascSales (sku_sales rs)).sublist
      (List.take_sublist _ _)⟩

/-- C4.  `compute_segments` is a deterministic function of its inputs: two
invocations on equal record sets and equal windows yield equal outputs,
member order included. -/
theorem compute_segments_deterministic (rs₁ rs₂ : List Record) (w₁ w₂ : ℤ)
    (hr : rs₁ = rs₂) (hw : w₁ = w₂) :
    compute_segments rs₁ w₁ = compute_segments rs₂ w₂ := by
  rw [hr, hw]

/-- Witness for C4: the example invocation repeated gives the identical
result. -/
theorem compute_segments_deterministic_witness :
    compute_segments exRecords 20 = compute_segments exRecords 20 :=
  compute_segments_deterministic exRecords exRecords 20 20 rfl rfl

/-- C9.  The state-passing computation returns the record collection unchanged
and its result is the pure function `compute_segments` of the inputs: the
operation reads but never writes its input, and touches no other state. -/
theorem compute_segments_pure (rs : List Record) (w : ℤ) :
    computeSegmentsSt rs w = (compute_segments rs w, rs) := by
  by_cases h1 : rs.isEmpty <;> by_cases h2 : w ≤ 0 <;>
    simp [computeSegmentsSt, compute_segments, top_df, bottom_df, h1, h2]

/-- C8.  A record set whose records all belong to one item `i` yields
`k = top_n 1 = 1` and both segments are exactly `[(i, salesFor rs i)]`:
the two segments coincide on that single item. -/
theorem single_item_segments (rs : List Record) (i : String)
    (h : (rs.map Record.itemId).dedup = [i]) :
    top_df rs = [(i, salesFor rs i)] ∧ bottom_df rs = [(i, salesFor rs i)] := by
  have h1 : itemIds rs = [i] := h
  have h2 : sku_sales rs = [(i, salesFor rs i)] := by
    simp [sku_sales, sortedItems, h1]
  constructor <;> simp [top_df, bottom_df, h2, top_n_one]

/-- Witness for C8: on the one-record example both segments are exactly the
item "A" with its total sales. -/
theorem single_item_segments_witness :
    top_df exRecords = [("A", salesFor exRecords "A")] ∧
    bottom_df exRecords = [("A", salesFor exRecords "A")] :=
  single_item_segments exRecords "A" (by simp [exRecords])

/-! ## Stability of the sort: ties resolved by lexical key order -/

theorem nodup_sortedItems (rs : List Record) : (sortedItems rs).Nodup :=
  ((List.perm_insertionSort _ _).nodup_iff).mpr (List.nodup_dedup _)

theorem sorted_sortedItems (rs : List Record) :
    (sortedItems rs).Sorted (· ≤ · : String → String → Prop) :=
  List.sorted_insertionSort _ _

theorem sku_sales_key_strict (rs : List Record) :
    (sku_sales rs).Pairwise (fun a b => a.1 < b.1) := by
  have h : (sortedItems rs).Sorted (· < · : String → String → Prop) :=
    (sorted_sortedItems rs).lt_of_le (nodup_sortedItems rs)
  rw [sku_sales, List.pairwise_map]
  exact h

theorem orderedInsert_descLex {m : List (String × ℚ)} {a : String × ℚ}
    (hm : m.Pairwise descLex) (ha : ∀ b ∈ m, a.1 < b.1) :
    (m.orderedInsert descSales a).Pairwise descLex := by
  induction m with
  | nil => simp
  | cons b t ih =>
    obtain ⟨hbt, htp⟩ := List.pairwise_cons.mp hm
    by_cases h : descSales a b
    · rw [List.orderedInsert, if_pos h]
      refine List.pairwise_cons.mpr ⟨?_, hm⟩
      intro c hc
      rcases List.mem_cons.mp hc with rfl | hct
      · rcases eq_or_lt_of_le h with heq | hlt
        · exact Or.inr ⟨heq.symm, ha c (List.mem_cons_self _ _)⟩
        · exact Or.inl hlt
      · have h' : b.2 ≤ a.2 := h
        rcases hbt c hct with hlt | ⟨heq, _⟩
        · exact Or.inl (lt_of_lt_of_le hlt h')
        · rcases eq_or_lt_of_le (heq ▸ h') with heq2 | hlt2
          · exact Or.inr ⟨heq2.symm, ha c (List.mem_cons_of_mem b hct)⟩
          · exact Or.inl hlt2
    · rw [List.orderedInsert, if_neg h]
      have hab : a.2 < b.2 := lt_of_not_le h
      refine List.pairwise_cons.mpr
        ⟨?_, ih htp (fun c hc => ha c (List.mem_cons_of_mem b hc))⟩
      intro c hc
      rcases (List.mem_orderedInsert descSales).mp hc with rfl | hct
      · exact Or.inl hab
      · exact hbt c hct

theorem orderedInsert_ascLex {m : List (String × ℚ)} {a : String × ℚ}
    (hm : m.Pairwise ascLex) (ha : ∀ b ∈ m, a.1 < b.1) :
    (m.orderedInsert ascSales a).Pairwise ascLex := by
  induction m with
  | nil => simp
  | cons b t ih =>
    obtain ⟨hbt, htp⟩ := List.pairwise_cons.mp hm
    by_cases h : ascSales a b
    · rw [List.orderedInsert, if_pos h]
      refine List.pairwise_cons.mpr ⟨?_, hm⟩
      intro c hc
      rcases List.mem_cons.mp hc with rfl | hct
      · rcases eq_or_lt_of_le h with heq | hlt
        · exact Or.inr ⟨heq, ha c (List.mem_cons_self _ _)⟩
        · exact Or.inl hlt
      · rcases hbt c hct with hlt | ⟨heq, _⟩
        · exact Or.inl (lt_of_le_of_lt h hlt)
        · rcases eq_or_lt_of_le (le_trans h heq.le) with heq2 | hlt2
          · exact Or.inr ⟨heq2, ha c (List.mem_cons_of_mem b hct)⟩
          · exact Or.inl hlt2
    · rw [List.orderedInsert, if_neg h]
      have hab : b.2 < a.2 := lt_of_not_le h
      refine List.pairwise_cons.mpr
        ⟨?_, ih htp (fun c hc => ha c (List.mem_cons_of_mem b hc))⟩
      intro c hc
      rcases (List.mem_orderedInsert ascSales).mp hc with rfl | hct
      · exact Or.inl hab
      · exact hbt c hct

theorem insertionSort_descLex {l : List (String × ℚ)}
    (h : l.Pairwise (fun a b => a.1 < b.1)) :
    (List.insertionSort descSales l).Pairwise descLex := by
  induction l with
  | nil => simp
  | cons a t ih =>
    obtain ⟨hat, htp⟩ := List.pairwise_cons.mp h
    exact orderedInsert_descLex (ih htp)
      (fun b hb => hat b ((List.perm_insertionSort _ _).mem_iff.mp hb))

theorem insertionSort_ascLex {l : List (String × ℚ)}
    (h : l.Pairwise (fun a b => a.1 < b.1)) :
    (List.insertionSort ascSales l).Pairwise ascLex := by
  induction l with
  | nil => simp
  | cons a t ih =>
    obtain ⟨hat, htp⟩ := List.pairwise_cons.mp h
    exact orderedInsert_ascLex (ih htp)
      (fun b hb => hat b ((List.perm_insertionSort _ _).mem_iff.mp hb))

/-- C3.  Ties are broken by the lexical order of the product names set at
grouping time: along the full descending (resp. ascending) sort of
`sku_sales`, and hence along both segments, any two tied rows appear in
strictly increasing lexical name order, so the selection and ordering of
tied items is the same on every run. -/
theorem tie_break_lexical (rs : List Record) :
    (List.insertionSort descSales (sku_sales rs)).Pairwise descLex ∧
    (List.insertionSort ascSales (sku_sales rs)).Pairwise ascLex ∧
    (top_df rs).Pairwise descLex ∧ (bottom_df rs).Pairwise ascLex :=
  ⟨insertionSort_descLex (sku_sales_key_strict rs),
   insertionSort_ascLex (sku_sales_key_strict rs),
   (insertionSort_descLex (sku_sales_key_strict rs)).sublist
     (List.take_sublist _ _),
   (insertionSort_ascLex (sku_sales_key_strict rs)).sublist
     (List.take_sublist _ _)⟩

/-! ## Velocity and days-of-supply annotations (spec-modelled) -/

theorem mkAggregate_days_supply_eq (rs : List Record) (w : ℤ) (e : String × ℚ) :
    (mkAggregate rs w e).days_supply =
      match (mkAggregate rs w e).total_quantity with
      | none => none
      | some q =>
        if 0 < (mkAggregate rs w e).velocity
        then some (round1 (q / (mkAggregate rs w e).velocity)) else none := by
  rcases hq : quantityFor rs e.1 with - | q <;> simp [mkAggregate, hq]

/-- C5.  Every item placed in either segment carries
`velocity = round(total_sales / window_days, 1)`. -/
theorem velocity_formula (rs : List Record) (w : ℤ) (out : SegmentOutput)
    (a : ItemAggregate) (hok : compute_segments rs w = .ok out)
    (ha : a ∈ out.top ∨ a ∈ out.bottom) :
    a.velocity = round1 (a.total_sales / (w : ℚ)) := by
  rw [compute_segments] at hok
  split at hok
  · exact Except.noConfusion hok
  · split at hok
    · exact Except.noConfusion hok
    · injection hok with h
      subst h
      rcases ha with ha | ha <;> · obtain ⟨e, -, rfl⟩ := List.mem_map.mp ha
                                   rfl

theorem round1_150 : round1 150 = 150 := by
  rw [round1, round_eq]
  norm_num

theorem round1_two_thirds : round1 (2 / 3) = 7 / 10 := by
  rw [round1, round_eq]
  norm_num

theorem quantityFor_exRecords :
    quantityFor [⟨"A", 3000, some 100⟩] "A" = some 100 := by
  simp [quantityFor, List.filterMap_cons]

theorem mkAggregate_exRecords :
    mkAggregate exRecords 20 ("A", 3000) =
      ⟨"A", 3000, some 100, 150, some (7 / 10)⟩ := by
  norm_num [mkAggregate, exRecords, quantityFor_exRecords, round1_150,
    round1_two_thirds]

/-- Witness for C5: on the worked example of the spec (`total_sales = 3000`,
`window_days = 20`) the segment member carries the formula velocity, whose
value is `150`. -/
theorem velocity_formula_witness :
    (mkAggregate exRecords 20 ("A", 3000)).velocity =
      round1 ((mkAggregate exRecords 20 ("A", 3000)).total_sales / ((20 : ℤ) : ℚ)) ∧
    (mkAggregate exRecords 20 ("A", 3000)).velocity = 150 :=
  ⟨velocity_formula exRecords 20 exOutput (mkAggregate exRecords 20 ("A", 3000))
      compute_segments_exRecords (Or.inl (by simp [exOutput])),
   by rw [mkAggregate_exRecords]⟩

/-- C6.  For every segment member, `days_supply` is
`round(total_quantity / velocity, 1)` exactly when `total_quantity` is
defined and `velocity > 0`, and undefined (`none`) otherwise — the guarded
`Option` value by construction never divides by zero. -/
theorem days_supply_guard (rs : List Record) (w : ℤ) (out : SegmentOutput)
    (a : ItemAggregate) (hok : compute_segments rs w = .ok out)
    (ha : a ∈ out.top ∨ a ∈ out.bottom) :
    a.days_supply =
      match a.total_quantity with
      | none => none
      | some q => if 0 < a.velocity then some (round1 (q / a.velocity)) else none := by
  rw [compute_segments] at hok
  split at hok
  · exact Except.noConfusion hok
  · split at hok
    · exact Except.noConfusion hok
    · injection hok with h
      subst h
      rcases ha with ha | ha <;>
        · obtain ⟨e, -, rfl⟩ := List.mem_map.mp ha
          exact mkAggregate_days_supply_eq rs w e

/-- Witness for C6: the example member has `total_quantity = some 100`,
`velocity = 150 > 0`, and therefore `days_supply = round(100/150, 1) = 0.7`. -/
theorem days_supply_guard_witness :
    ((mkAggregate exRecords 20 ("A", 3000)).days_supply =
      match (mkAggregate exRecords 20 ("A", 3000)).total_quantity with
      | none => none
      | some q => if 0 < (mkAggregate exRecords 20 ("A", 3000)).velocity
                  then some (round1 (q / (mkAggregate exRecords 20 ("A", 3000)).velocity))
                  else none) ∧
    (mkAggregate exRecords 20 ("A", 3000)).days_supply = some (7 / 10) :=
  ⟨days_supply_guard exRecords 20 exOutput (mkAggregate exRecords 20 ("A", 3000))
      compute_segments_exRecords (Or.inl (by simp [exOutput])),
   by rw [mkAggregate_exRecords]⟩

/-! ## Error conditions (spec-modelled) -/

/-- Counterexample to C7 as stated: with empty records and window `0` the
operation fails with `EmptyInputError`, not `InvalidWindowError`, although
`window_days ≤ 0` holds — the two "if and only if" conditions cannot hold
simultaneously on this input. -/
theorem error_overlap_counterexample :
    compute_segments [] 0 = .error .EmptyInputError ∧
    ((0 : ℤ) ≤ 0) ∧
    compute_segments [] 0 ≠ .error .InvalidWindowError := by
  refine ⟨rfl, le_refl 0, fun hcontra => ?_⟩
  simp [compute_segments] at hcontra

/-- C7 (amended).  `compute_segments` fails with `EmptyInputError` iff the
record set is empty; it fails with `InvalidWindowError` iff the record set is
non-empty and `window_days ≤ 0` (the empty-input check takes precedence);
with non-empty records and a positive window it returns a result. -/
theorem error_conditions (rs : List Record) (w : ℤ) :
    (compute_segments rs w = .error .EmptyInputError ↔ rs = []) ∧
    (compute_segments rs w = .error .InvalidWindowError ↔ (rs ≠ [] ∧ w ≤ 0)) ∧
    (rs ≠ [] → 0 < w → (compute_segments rs w).isOk = true) := by
  cases rs with
  | nil => simp [compute_segments]
  | cons r t =>
    by_cases h2 : w ≤ 0
    · simp [compute_segments, h2]
    · simp [compute_segments, h2, Except.isOk, Except.toBool]

/-- Witness for C7 (amended): a non-empty record set with a positive window
returns a result. -/
theorem error_conditions_witness :
    (compute_segments exRecords 20).isOk = true :=
  (error_conditions exRecords 20).2.2 (by simp [exRecords]) (by norm_num)

/-! ## Grouping preserves the total (C10) -/

theorem salesFor_nil (i : String) : salesFor [] i = 0 := rfl

theorem salesFor_cons (r : Record) (t : List Record) (i : String) :
    salesFor (r :: t) i = (if r.itemId = i then r.amount else 0) + salesFor t i := by
  by_cases h : r.itemId = i <;> simp [salesFor, List.filter_cons, h]

theorem sum_map_add {α : Type} (l : List α) (f g : α → ℚ) :
    (l.map (fun x => f x + g x)).sum = (l.map f).sum + (l.map g).sum := by
  induction l with
  | nil => simp
  | cons a t ih =>
    simp only [List.map_cons, List.sum_cons, ih]
    ring

theorem sum_map_ite_single {l : List String} (hnd : l.Nodup) {i : String}
    (hi : i ∈ l) (c : ℚ) :
    (l.map (fun j => if i = j then c else 0)).sum = c := by
  induction l with
  | nil => cases hi
  | cons a t ih =>
    obtain ⟨hna, hnt⟩ := List.nodup_cons.mp hnd
    rcases List.mem_cons.mp hi with rfl | hit
    · have hz : (t.map (fun j => if i = j then c else 0)).sum = 0 := by
        apply List.sum_eq_zero
        intro x hx
        obtain ⟨j, hj, rfl⟩ := List.mem_map.mp hx
        exact if_neg (fun he => hna (by rw [he]; exact hj))
      rw [List.map_cons, List.sum_cons, if_pos rfl, hz, add_zero]
    · have hne : i ≠ a := fun he => hna (by rw [← he]; exact hit)
      rw [List.map_cons, List.sum_cons, if_neg hne, ih hnt hit, zero_add]

theorem grouped_sum_aux (rs : List Record) (items : List String)
    (hnd : items.Nodup) (hcov : ∀ r ∈ rs, r.itemId ∈ items) :
    (items.map (fun i => salesFor rs i)).sum = total_sales rs := by
  induction rs with
  | nil =>
    simp [total_sales, salesFor_nil]
  | cons r t ih =>
    have h1 : ∀ x ∈ t, x.itemId ∈ items :=
      fun x hx => hcov x (List.mem_cons_of_mem r hx)
    calc (items.map (fun i => salesFor (r :: t) i)).sum
        = (items.map (fun i =>
            (if r.itemId = i then r.amount else 0) + salesFor t i)).sum := by
          simp only [salesFor_cons]
      _ = (items.map (fun i => if r.itemId = i then r.amount else 0)).sum +
            (items.map (fun i => salesFor t i)).sum :=
          sum_map_add items _ _
      _ = r.amount + total_sales t := by
          rw [sum_map_ite_single hnd (hcov r (List.mem_cons_self r t)), ih h1]
      _ = total_sales (r :: t) := by
          simp [total_sales]

/-- C10.  The per-item `total_sales` values produced by the grouping add up
to the overall sales total of the whole record set (line 50): grouping by
item partitions the records. -/
theorem grouping_preserves_total (rs : List Record) :
    ((sku_sales rs).map Prod.snd).sum = total_sales rs := by
  have hcov : ∀ r ∈ rs, r.itemId ∈ sortedItems rs := by
    intro r hr
    rw [sortedItems, (List.perm_insertionSort _ _).mem_iff, itemIds, List.mem_dedup]
    exact List.mem_map_of_mem Record.itemId hr
  have h1 : ((sku_sales rs).map Prod.snd).sum =
      ((sortedItems rs).map (fun i => salesFor rs i)).sum := by
    rw [sku_sales, List.map_map]
    rfl
  rw [h1]
  exact grouped_sum_aux rs (sortedItems rs) (nodup_sortedItems rs) hcov

end PinePulse
